import Mathlib

/-!
Verification development for the resource-resolution and cache layer of a
small static-content HTTP server (ResourceHost.cpp).

The C++ code is shallowly embedded: the filesystem is a record of pure
functions (the stat table, file contents, open success, and directory
enumeration), the cache map is an association list with the
insert-if-absent semantics of unordered_map::insert, and every operation
additionally returns the trace of filesystem / cache operations it
performed, so that claims about "zero filesystem reads" and "exactly one
cache insertion" can be stated.
-/

/-- A byte of file content, modelled as a natural number. -/
abbrev Byte := Nat

/-- The metadata snapshot filled in by stat: mode bits and size. -/
structure StatBuf where
  st_mode : Nat
  st_size : Nat
deriving DecidableEq

/-- Owner read/write/execute permission mask (POSIX 0o700). -/
def S_IRWXU : Nat := 0o700

/-- Directory type bit as used by the source (POSIX 0o040000). The source
tests st_mode with a plain bitwise AND against this constant. -/
def S_IFDIR : Nat := 0o040000

/-- Regular-file type bit as used by the source (POSIX 0o100000). -/
def S_IFREG : Nat := 0o100000

/-- A Resource: location string (the cache key), the byte buffer, the
directory flag, and the MIME type assigned after load. -/
structure Resource where
  location : String
  data : List Byte
  isDirectory : Bool
  mimeType : String
deriving DecidableEq

/-- Host configuration: the base disk path, the ordered index-filename
candidates (declared in the ResourceHost header), and the external
MIME-guessing collaborator. -/
structure HostConfig where
  baseDiskPath : String
  validIndexes : List String
  guessMime : String → String

/-- The filesystem, as seen through the calls the source makes: stat
(None models a -1 return), the byte contents of a path, whether opening a
path as an ifstream succeeds, and directory enumeration (None models a
NULL return from opendir; Some gives the entry names in readdir order). -/
structure FileSys where
  stat : String → Option StatBuf
  contents : String → List Byte
  openOk : String → Bool
  readdir : String → Option (List String)

/-- One observable operation performed during resolution. -/
inductive Op where
  | statOp : String → Op
  | openOp : String → Op
  | readOp : String → Nat → Op
  | opendirOp : String → Op
  | insertOp : String → Op
deriving DecidableEq

/-- Whether an operation touches the filesystem (everything except a cache
insertion). -/
def Op.isFsAccess : Op → Bool
  | .insertOp _ => false
  | _ => true

/-- Whether an operation is a cache insertion. -/
def Op.isInsert : Op → Bool
  | .insertOp _ => true
  | _ => false

/-- The cache map, keyed by resource location. -/
abbrev CacheMap := List (String × Resource)

/-- Cache lookup (unordered_map::find). -/
def cacheFind (m : CacheMap) (k : String) : Option Resource :=
  (m.find? (fun p => p.1 == k)).map (fun p => p.2)

/-- Cache insertion with the semantics of unordered_map::insert: if the
key is already present the map is unchanged. -/
def cacheInsert (m : CacheMap) (k : String) (r : Resource) : CacheMap :=
  match m.find? (fun p => p.1 == k) with
  | some _ => m
  | none => (k, r) :: m

/-- The outcome of a resolution step: the returned Resource (or NULL),
the cache afterwards, and the trace of operations performed. -/
structure ResolveOut where
  result : Option Resource
  cache : CacheMap
  ops : List Op
deriving DecidableEq

/-- ResourceHost::loadFile. Rejects when the owner permission mask is
clear, then attempts to open; on success reads st_size bytes into a fresh
buffer, builds the Resource, and inserts it into the cache under its
location. -/
def loadFile (cfg : HostConfig) (fs : FileSys) (cache : CacheMap)
    (path : String) (sb : StatBuf) : ResolveOut :=
  if sb.st_mode &&& S_IRWXU = 0 then
    ⟨none, cache, []⟩
  else if fs.openOk path = false then
    ⟨none, cache, [Op.openOp path]⟩
  else
    let len := sb.st_size
    let fdata := (fs.contents path).take len
    let res : Resource :=
      { location := path, data := fdata, isDirectory := false,
        mimeType := cfg.guessMime path }
    ⟨some res, cacheInsert cache res.location res,
      [Op.openOp path, Op.readOp path len, Op.insertOp res.location]⟩

/-- The trailing-slash normalization at the top of loadDirectory. -/
def normalizeDirPath (p : String) : String :=
  if p.back ≠ '/' then p ++ "/" else p

/-- The index-probing loop of loadDirectory: stat each candidate in
order; the first hit returns its full path and stat record. The trace
records one stat per probe actually made. -/
def probeIndexes (fs : FileSys) (path : String) :
    List String → Option (String × StatBuf) × List Op
  | [] => (none, [])
  | idx :: rest =>
    let loadIndex := path ++ idx
    match fs.stat loadIndex with
    | some sidx => (some (loadIndex, sidx), [Op.statOp loadIndex])
    | none =>
      let r := probeIndexes fs path rest
      (r.1, Op.statOp loadIndex :: r.2)

/-- The first lines of ResourceHost::listDirectory: the displayed URI is
computed with find_last_of, which locates the last character of the path
that occurs anywhere in the base disk path, and takes the suffix from
that position; if no character matches, the placeholder is used. -/
def lastIndexOfAny (cs : List Char) (set : List Char) : Option Nat :=
  match cs with
  | [] => none
  | c :: rest =>
    match lastIndexOfAny rest set with
    | some i => some (i + 1)
    | none => if set.contains c then some 0 else none

/-- The displayed URI computed by listDirectory from the path and the
base disk path (find_last_of followed by substr, with fallback). -/
def computeListingUri (cfg : HostConfig) (path : String) : String :=
  match lastIndexOfAny path.data cfg.baseDiskPath.data with
  | none => "?"
  | some i => String.mk (path.data.drop i)

/-- Whether a directory entry is skipped as hidden: its first character
is a period. -/
def isHidden (e : String) : Bool :=
  e.data.head? == some '.'

/-- The hyperlink line emitted for one directory entry. -/
def entryLink (uri e : String) : String :=
  "<a href=\"" ++ uri ++ e ++ "\">" ++ e ++ "</a><br />"

/-- The readdir loop of listDirectory: a left fold over the entries,
appending one link per non-hidden entry. -/
def listingBody (uri : String) (ents : List String) : String :=
  ents.foldl (fun acc e => if isHidden e then acc else acc ++ entryLink uri e) ""

/-- ResourceHost::listDirectory. On opendir failure returns the empty
string; otherwise the html document with one link per non-hidden entry. -/
def listDirectory (cfg : HostConfig) (fs : FileSys) (path : String) :
    String × List Op :=
  let uri := computeListingUri cfg path
  match fs.readdir path with
  | none => ("", [Op.opendirOp path])
  | some ents =>
    ("<html><head><title>" ++ uri ++ "</title></head><body>" ++
       "<h1>Index of " ++ uri ++ "</h1><hr><br />" ++
       listingBody uri ents ++ "</body></html>",
     [Op.opendirOp path])

/-- The bytes copied out of a listing string by strncpy: one byte per
character. -/
def strBytes (s : String) : List Byte :=
  s.data.map Char.toNat

/-- ResourceHost::loadDirectory. Normalizes the path, probes the index
candidates (a hit short-circuits into loadFile), otherwise checks the
owner permission mask on the directory and builds a listing Resource,
inserting it into the cache under its location. -/
def loadDirectory (cfg : HostConfig) (fs : FileSys) (cache : CacheMap)
    (path0 : String) (sb : StatBuf) : ResolveOut :=
  let path := normalizeDirPath path0
  match probeIndexes fs path cfg.validIndexes with
  | (some (loadIndex, sidx), pops) =>
    let out := loadFile cfg fs cache loadIndex sidx
    ⟨out.result, out.cache, pops ++ out.ops⟩
  | (none, pops) =>
    if sb.st_mode &&& S_IRWXU = 0 then
      ⟨none, cache, pops⟩
    else
      let ld := listDirectory cfg fs path
      let res : Resource :=
        { location := path, data := strBytes ld.1, isDirectory := true,
          mimeType := "" }
      ⟨some res, cacheInsert cache res.location res,
        pops ++ ld.2 ++ [Op.insertOp res.location]⟩

/-- ResourceHost::clearCache: destroys every Resource and empties the
map. -/
def clearCache (_cache : CacheMap) : CacheMap := []

/-- ResourceHost::getResource. Rejects oversized or empty URIs, checks
the cache under the composed path, stats on a miss, and dispatches on
the directory / regular-file bits of st_mode. -/
def getResource (cfg : HostConfig) (fs : FileSys) (cache : CacheMap)
    (uri : String) : ResolveOut :=
  if uri.length > 255 || uri.isEmpty then
    ⟨none, cache, []⟩
  else
    let path := cfg.baseDiskPath ++ uri
    match cacheFind cache path with
    | some res => ⟨some res, cache, []⟩
    | none =>
      match fs.stat path with
      | none => ⟨none, cache, [Op.statOp path]⟩
      | some sb =>
        if sb.st_mode &&& S_IFDIR ≠ 0 then
          let out := loadDirectory cfg fs cache path sb
          ⟨out.result, out.cache, Op.statOp path :: out.ops⟩
        else if sb.st_mode &&& S_IFREG ≠ 0 then
          let out := loadFile cfg fs cache path sb
          ⟨out.result, out.cache, Op.statOp path :: out.ops⟩
        else
          ⟨none, cache, [Op.statOp path]⟩

/-! Concrete test fixtures used by witnesses and counterexamples. -/

/-- A concrete host configuration with base path /base and the two
conventional index candidates. -/
def exCfg : HostConfig :=
  { baseDiskPath := "/base", validIndexes := ["index.html", "index.htm"],
    guessMime := fun _ => "text/html" }

/-- A concrete filesystem: a directory with an index file, a directory
whose enumeration fails, a socket, a listable directory, a fully owned
regular file, and an owner-read-only regular file. -/
def exFs : FileSys :=
  { stat := fun p =>
      if p = "/base/d" then some ⟨0o040755, 0⟩
      else if p = "/base/d/index.html" then some ⟨0o100700, 2⟩
      else if p = "/base/e" then some ⟨0o040700, 0⟩
      else if p = "/base/sock" then some ⟨0o140755, 0⟩
      else if p = "/base/l" then some ⟨0o040700, 0⟩
      else if p = "/base/f" then some ⟨0o100700, 3⟩
      else if p = "/base/r" then some ⟨0o100400, 1⟩
      else none,
    contents := fun p =>
      if p = "/base/d/index.html" then [104, 105]
      else if p = "/base/f" then [97, 98, 99]
      else if p = "/base/r" then [120]
      else [],
    openOk := fun _ => true,
    readdir := fun p =>
      if p = "/base/l/" then some ["x.txt", ".hidden"]
      else none }

/-! Helper lemmas about the cache map. -/

/-- A cache lookup misses exactly when the underlying find misses. -/
theorem cacheFind_eq_none {m : CacheMap} {k : String} (h : cacheFind m k = none) :
    m.find? (fun p => p.1 == k) = none := by
  unfold cacheFind at h
  exact Option.map_eq_none'.mp h

/-- Inserting under an absent key prepends the pair. -/
theorem cacheInsert_of_miss {m : CacheMap} {k : String} (r : Resource)
    (h : cacheFind m k = none) : cacheInsert m k r = (k, r) :: m := by
  unfold cacheInsert
  rw [cacheFind_eq_none h]

/-- Looking up the key of a freshly prepended pair finds its resource. -/
theorem cacheFind_cons_self (m : CacheMap) (k : String) (r : Resource) :
    cacheFind ((k, r) :: m) k = some r := by
  unfold cacheFind
  rw [List.find?_cons_of_pos]
  · rfl
  · simp

/-- Claim C4: a URI that is empty or longer than 255 characters is
rejected immediately: NULL result, the cache unchanged, and no
filesystem operation performed. -/
theorem c4_invalid_uri_immediate_miss (cfg : HostConfig) (fs : FileSys)
    (cache : CacheMap) (uri : String)
    (h : 255 < uri.length ∨ uri = "") :
    getResource cfg fs cache uri = ⟨none, cache, []⟩ := by
  unfold getResource
  have hb : (uri.length > 255 || uri.isEmpty) = true := by
    rcases h with h | h
    · simp [h]
    · subst h; decide
  rw [if_pos hb]

/-- Witness for C4 at the concrete empty URI. -/
theorem c4_witness : getResource exCfg exFs [] "" = ⟨none, [], []⟩ :=
  c4_invalid_uri_immediate_miss exCfg exFs [] "" (Or.inr rfl)

/-- Claim C2: for a regular file that passes the owner permission check
and opens successfully, with the stat size matching the on-disk
contents, the first resolve returns a Resource whose buffer is exactly
the file contents, whose length equals the stat size, located at the
composed path, with the trace showing one stat, one open, one read of
st_size bytes, and one cache insertion. -/
theorem c2_file_roundtrip (cfg : HostConfig) (fs : FileSys) (cache : CacheMap)
    (uri : String) (sb : StatBuf)
    (hlen : uri.length ≤ 255) (hne : uri ≠ "")
    (hmiss : cacheFind cache (cfg.baseDiskPath ++ uri) = none)
    (hstat : fs.stat (cfg.baseDiskPath ++ uri) = some sb)
    (hdir : sb.st_mode &&& S_IFDIR = 0)
    (hreg : sb.st_mode &&& S_IFREG ≠ 0)
    (hperm : sb.st_mode &&& S_IRWXU ≠ 0)
    (hopen : fs.openOk (cfg.baseDiskPath ++ uri) = true)
    (hsize : sb.st_size = (fs.contents (cfg.baseDiskPath ++ uri)).length) :
    ∃ res, (getResource cfg fs cache uri).result = some res ∧
      res.location = cfg.baseDiskPath ++ uri ∧
      res.data = fs.contents (cfg.baseDiskPath ++ uri) ∧
      res.data.length = sb.st_size ∧
      (getResource cfg fs cache uri).ops =
        [Op.statOp (cfg.baseDiskPath ++ uri), Op.openOp (cfg.baseDiskPath ++ uri),
         Op.readOp (cfg.baseDiskPath ++ uri) sb.st_size,
         Op.insertOp (cfg.baseDiskPath ++ uri)] := by
  have hb : (uri.length > 255 || uri.isEmpty) = false := by
    have h1 : ¬ uri.length > 255 := by omega
    have h2 : uri.isEmpty = false := by
      cases h : uri.isEmpty
      · rfl
      · exact absurd ((String.isEmpty_iff uri).mp h) hne
    simp [h1, h2]
  refine ⟨⟨cfg.baseDiskPath ++ uri,
           (fs.contents (cfg.baseDiskPath ++ uri)).take sb.st_size, false,
           cfg.guessMime (cfg.baseDiskPath ++ uri)⟩, ?_, rfl, ?_, ?_, ?_⟩ <;>
    simp [getResource, loadFile, hb, hmiss, hstat, hdir, hreg, hperm, hopen, hsize]

/-- Witness for C2 at the concrete fully owned file /base/f. -/
theorem c2_witness :
    ∃ res, (getResource exCfg exFs [] "/f").result = some res ∧
      res.location = exCfg.baseDiskPath ++ "/f" ∧
      res.data = exFs.contents (exCfg.baseDiskPath ++ "/f") ∧
      res.data.length = (3 : Nat) ∧
      (getResource exCfg exFs [] "/f").ops =
        [Op.statOp (exCfg.baseDiskPath ++ "/f"), Op.openOp (exCfg.baseDiskPath ++ "/f"),
         Op.readOp (exCfg.baseDiskPath ++ "/f") (3 : Nat),
         Op.insertOp (exCfg.baseDiskPath ++ "/f")] :=
  c2_file_roundtrip exCfg exFs [] "/f" ⟨0o100700, 3⟩ (by decide) (by decide)
    (by decide) (by decide) (by decide) (by decide) (by decide) (by decide) (by decide)

/-- Counterexample to C1: for the directory URI /d, whose resolution is
satisfied by the index file /base/d/index.html, the first resolve
succeeds, yet the second consecutive resolve of the same URI is not a
cache hit: it performs filesystem reads again (the Resource was cached
under the index-file path, not under the looked-up composed path). -/
theorem c1_counterexample :
    (getResource exCfg exFs [] "/d").result.isSome = true ∧
    ((getResource exCfg exFs (getResource exCfg exFs [] "/d").cache "/d").ops.filter
      Op.isFsAccess) ≠ [] := by decide

/-- Claim C1 as amended: when the first resolve of a URI returns a
Resource and the stat of the composed path does not carry the directory
bit, the second consecutive resolve returns the identical Resource as a
cache hit, with an empty operation trace (zero filesystem reads, no
insertion) and the cache unchanged. (For directory URIs the cached key
can differ from the composed path, so the second call may miss.) -/
theorem c1_second_resolve_cache_hit (cfg : HostConfig) (fs : FileSys)
    (cache : CacheMap) (uri : String) (res : Resource)
    (hnotdir : ∀ sb, fs.stat (cfg.baseDiskPath ++ uri) = some sb →
      sb.st_mode &&& S_IFDIR = 0)
    (hres : (getResource cfg fs cache uri).result = some res) :
    getResource cfg fs (getResource cfg fs cache uri).cache uri =
      ⟨some res, (getResource cfg fs cache uri).cache, []⟩ := by
  by_cases hb0 : (uri.length > 255 || uri.isEmpty) = true
  · exact absurd hres (by simp [getResource, hb0])
  · have hb : (uri.length > 255 || uri.isEmpty) = false := by simpa using hb0
    cases hfind : cacheFind cache (cfg.baseDiskPath ++ uri) with
    | some r =>
      have h1 : getResource cfg fs cache uri = ⟨some r, cache, []⟩ := by
        simp [getResource, hb, hfind]
      rw [h1] at hres ⊢
      simp only [Option.some.injEq] at hres
      simp [getResource, hb, hfind, hres]
    | none =>
      cases hstat : fs.stat (cfg.baseDiskPath ++ uri) with
      | none => exact absurd hres (by simp [getResource, hb, hfind, hstat])
      | some sb =>
        have hdir := hnotdir sb hstat
        by_cases hreg : sb.st_mode &&& S_IFREG ≠ 0
        · by_cases hperm : sb.st_mode &&& S_IRWXU = 0
          · exact absurd hres
              (by simp [getResource, loadFile, hb, hfind, hstat, hdir, hperm])
          · by_cases hopen : fs.openOk (cfg.baseDiskPath ++ uri) = false
            · exact absurd hres
                (by simp [getResource, loadFile, hb, hfind, hstat, hdir, hreg,
                          hperm, hopen])
            · have h1 : getResource cfg fs cache uri =
                ⟨some ⟨cfg.baseDiskPath ++ uri,
                       (fs.contents (cfg.baseDiskPath ++ uri)).take sb.st_size,
                       false, cfg.guessMime (cfg.baseDiskPath ++ uri)⟩,
                 (cfg.baseDiskPath ++ uri,
                  ⟨cfg.baseDiskPath ++ uri,
                   (fs.contents (cfg.baseDiskPath ++ uri)).take sb.st_size,
                   false, cfg.guessMime (cfg.baseDiskPath ++ uri)⟩) :: cache,
                 [Op.statOp (cfg.baseDiskPath ++ uri),
                  Op.openOp (cfg.baseDiskPath ++ uri),
                  Op.readOp (cfg.baseDiskPath ++ uri) sb.st_size,
                  Op.insertOp (cfg.baseDiskPath ++ uri)]⟩ := by
                simp [getResource, loadFile, hb, hfind, hstat, hdir, hreg,
                      hperm, hopen, cacheInsert_of_miss _ hfind]
              rw [h1] at hres ⊢
              simp only [Option.some.injEq] at hres
              simp [getResource, hb, cacheFind_cons_self, hres]
        · exact absurd hres
            (by simp [getResource, hb, hfind, hstat, hdir, hreg])

/-- Witness for the amended C1 at the concrete regular file /base/f. -/
theorem c1_witness :
    getResource exCfg exFs (getResource exCfg exFs [] "/f").cache "/f" =
      ⟨(getResource exCfg exFs [] "/f").result,
       (getResource exCfg exFs [] "/f").cache, []⟩ := by
  have h := c1_second_resolve_cache_hit exCfg exFs [] "/f"
    ⟨"/base/f", [97, 98, 99], false, "text/html"⟩
    (by
      intro sb hsb
      have h0 : exFs.stat (exCfg.baseDiskPath ++ "/f") = some ⟨0o100700, 3⟩ := by
        decide
      rw [h0] at hsb
      cases hsb
      decide)
    (by decide)
  rw [h]
  decide

/-! Probe-loop helper lemmas. -/

/-- If every candidate index misses its stat, the probe finds nothing. -/
theorem probeIndexes_none (fs : FileSys) (path : String) (l : List String)
    (h : ∀ j ∈ l, fs.stat (path ++ j) = none) :
    (probeIndexes fs path l).1 = none := by
  induction l with
  | nil => rfl
  | cons idx rest ih =>
    simp only [probeIndexes, h idx (by simp)]
    exact ih (fun j hj => h j (by simp [hj]))

/-- The probe returns the first candidate whose stat succeeds, in list
order. -/
theorem probeIndexes_found (fs : FileSys) (path : String)
    (pre rest : List String) (idx : String) (sidx : StatBuf)
    (hpre : ∀ j ∈ pre, fs.stat (path ++ j) = none)
    (hidx : fs.stat (path ++ idx) = some sidx) :
    (probeIndexes fs path (pre ++ idx :: rest)).1 = some (path ++ idx, sidx) := by
  induction pre with
  | nil => simp [probeIndexes, hidx]
  | cons j pre ih =>
    simp only [List.cons_append, probeIndexes, hpre j (by simp)]
    exact ih (fun k hk => hpre k (by simp [hk]))

/-- Claim C5 as amended: the permission gate of the source rejects
exactly when NONE of the owner read/write/execute bits is set: with the
owner mask entirely clear, file load is an immediate miss, and directory
load without an index candidate present is a miss leaving the cache
unchanged. (A file with only some of the three bits set passes the
check, contrary to the claim as stated.) -/
theorem c5_owner_mask_clear_miss (cfg : HostConfig) (fs : FileSys)
    (cache : CacheMap) (path : String) (sb : StatBuf)
    (hperm : sb.st_mode &&& S_IRWXU = 0) :
    loadFile cfg fs cache path sb = ⟨none, cache, []⟩ ∧
    ((∀ j ∈ cfg.validIndexes, fs.stat (normalizeDirPath path ++ j) = none) →
      (loadDirectory cfg fs cache path sb).result = none ∧
      (loadDirectory cfg fs cache path sb).cache = cache) := by
  constructor
  · unfold loadFile
    rw [if_pos hperm]
  · intro hnoidx
    have hp := probeIndexes_none fs (normalizeDirPath path) cfg.validIndexes hnoidx
    rcases hpq : probeIndexes fs (normalizeDirPath path) cfg.validIndexes with ⟨fst, snd⟩
    rw [hpq] at hp
    simp at hp
    subst hp
    constructor <;> simp [loadDirectory, hpq, hperm]

/-- Witness for the amended C5: a regular file with the owner mask clear
(mode 0o100000) is a miss on both load paths. -/
theorem c5_witness :
    loadFile exCfg exFs [] "/base/zero" ⟨0o100000, 0⟩ = ⟨none, [], []⟩ ∧
    ((∀ j ∈ exCfg.validIndexes,
        exFs.stat (normalizeDirPath "/base/zero" ++ j) = none) →
      (loadDirectory exCfg exFs [] "/base/zero" ⟨0o100000, 0⟩).result = none ∧
      (loadDirectory exCfg exFs [] "/base/zero" ⟨0o100000, 0⟩).cache = []) :=
  c5_owner_mask_clear_miss exCfg exFs [] "/base/zero" ⟨0o100000, 0⟩ (by decide)

/-- Counterexample to C5: the file /base/r has only the owner read bit
set (mode 0o100400), so the claim says it must be rejected, yet loadFile
serves it: the bitwise test only checks that the owner mask is not
entirely clear. -/
theorem c5_counterexample :
    (loadFile exCfg exFs [] "/base/r" ⟨0o100400, 1⟩).result ≠ none := by decide

/-- Claim C6 (the code bug evaluated): a socket (stat mode 0o140755,
S_IFSOCK with rwx owner bits) is dispatched to the directory branch,
because the S_IFSOCK type value shares the S_IFDIR bit, and resolve
returns a non-NULL empty listing Resource instead of the miss the claim
(and the comment in the source) requires. -/
theorem c6_socket_not_missed :
    (getResource exCfg exFs [] "/sock").result =
      some ⟨"/base/sock/", [], true, ""⟩ ∧
    0o140000 &&& S_IFDIR ≠ 0 := by decide

/-- Claim C3: when the configured candidate list splits as
pre ++ idx :: rest with every earlier candidate absent and idx present,
directory load probes in that fixed order, short-circuits on idx, and
its result and cache are exactly those of the file-load path applied to
the index path — for EVERY stat record of the directory itself, so the
owner permission check on the directory is skipped in this branch. -/
theorem c3_index_short_circuit (cfg : HostConfig) (fs : FileSys)
    (cache : CacheMap) (path0 : String) (sidx : StatBuf) (idx : String)
    (pre rest : List String)
    (hcfg : cfg.validIndexes = pre ++ idx :: rest)
    (hpre : ∀ j ∈ pre, fs.stat (normalizeDirPath path0 ++ j) = none)
    (hidx : fs.stat (normalizeDirPath path0 ++ idx) = some sidx) :
    ∀ sb : StatBuf,
      (loadDirectory cfg fs cache path0 sb).result =
        (loadFile cfg fs cache (normalizeDirPath path0 ++ idx) sidx).result ∧
      (loadDirectory cfg fs cache path0 sb).cache =
        (loadFile cfg fs cache (normalizeDirPath path0 ++ idx) sidx).cache := by
  intro sb
  have hp : (probeIndexes fs (normalizeDirPath path0) cfg.validIndexes).1 =
      some (normalizeDirPath path0 ++ idx, sidx) := by
    rw [hcfg]
    exact probeIndexes_found fs (normalizeDirPath path0) pre rest idx sidx hpre hidx
  rcases hpq : probeIndexes fs (normalizeDirPath path0) cfg.validIndexes with ⟨fst, snd⟩
  rw [hpq] at hp
  simp at hp
  subst hp
  constructor <;> simp [loadDirectory, hpq]

/-- Witness for C3 at the directory /base/d whose first candidate
index.html exists; the stat record passed for the directory has no
permission bits at all, showing the permission check is skipped. -/
theorem c3_witness :
    (loadDirectory exCfg exFs [] "/base/d" ⟨0, 0⟩).result =
      (loadFile exCfg exFs [] (normalizeDirPath "/base/d" ++ "index.html")
        ⟨0o100700, 2⟩).result ∧
    (loadDirectory exCfg exFs [] "/base/d" ⟨0, 0⟩).cache =
      (loadFile exCfg exFs [] (normalizeDirPath "/base/d" ++ "index.html")
        ⟨0o100700, 2⟩).cache :=
  c3_index_short_circuit exCfg exFs [] "/base/d" ⟨0o100700, 2⟩ "index.html"
    [] ["index.htm"] rfl (by simp) (by decide) ⟨0, 0⟩

/-- Reference rendering of a listing body: the concatenation of one
hyperlink per listed entry, in order. -/
def joinLinks (uri : String) (l : List String) : String :=
  l.foldr (fun e acc => entryLink uri e ++ acc) ""

/-- The listing loop with an arbitrary accumulated document equals the
accumulator followed by one link per non-hidden entry. -/
theorem listingBody_loop (uri : String) (ents : List String) (acc : String) :
    ents.foldl (fun a e => if isHidden e then a else a ++ entryLink uri e) acc =
      acc ++ joinLinks uri (ents.filter (fun e => !isHidden e)) := by
  induction ents generalizing acc with
  | nil => simp [joinLinks, String.append_empty]
  | cons e rest ih =>
    by_cases h : isHidden e
    · simp [h, ih]
    · simp [h, ih, joinLinks, String.append_assoc]

/-- The listing body is exactly one hyperlink per non-hidden entry: the
hidden entries (leading period, including the current and parent
pseudo-entries) are excluded, and each surviving entry contributes
exactly its link, in readdir order. -/
theorem listingBody_eq_joinLinks (uri : String) (ents : List String) :
    listingBody uri ents = joinLinks uri (ents.filter (fun e => !isHidden e)) := by
  have h := listingBody_loop uri ents ""
  rw [listingBody, h, String.empty_append]

/-- Claim C8: for a directory with no index candidate present, the owner
mask set, and enumeration succeeding with the given entries, resolve
returns a listing Resource whose body is the html document containing
exactly one hyperlink per entry not beginning with a period, and no link
for any entry beginning with a period. -/
theorem c8_listing_one_link_per_visible_entry (cfg : HostConfig) (fs : FileSys)
    (cache : CacheMap) (path0 : String) (sb : StatBuf) (ents : List String)
    (hnoidx : ∀ j ∈ cfg.validIndexes, fs.stat (normalizeDirPath path0 ++ j) = none)
    (hperm : sb.st_mode &&& S_IRWXU ≠ 0)
    (hdir : fs.readdir (normalizeDirPath path0) = some ents) :
    (loadDirectory cfg fs cache path0 sb).result =
      some ⟨normalizeDirPath path0,
            strBytes ("<html><head><title>" ++
              computeListingUri cfg (normalizeDirPath path0) ++
              "</title></head><body>" ++ "<h1>Index of " ++
              computeListingUri cfg (normalizeDirPath path0) ++
              "</h1><hr><br />" ++
              joinLinks (computeListingUri cfg (normalizeDirPath path0))
                (ents.filter (fun e => !isHidden e)) ++
              "</body></html>"),
            true, ""⟩ := by
  have hp := probeIndexes_none fs (normalizeDirPath path0) cfg.validIndexes hnoidx
  rcases hpq : probeIndexes fs (normalizeDirPath path0) cfg.validIndexes with ⟨fst, snd⟩
  rw [hpq] at hp
  simp at hp
  subst hp
  simp [loadDirectory, hpq, hperm, listDirectory, hdir, listingBody_eq_joinLinks]

/-- Witness for C8 at the directory /base/l containing the entries
x.txt and .hidden: only x.txt receives a link. -/
theorem c8_witness :
    (loadDirectory exCfg exFs [] "/base/l" ⟨0o040700, 0⟩).result =
      some ⟨normalizeDirPath "/base/l",
            strBytes ("<html><head><title>" ++
              computeListingUri exCfg (normalizeDirPath "/base/l") ++
              "</title></head><body>" ++ "<h1>Index of " ++
              computeListingUri exCfg (normalizeDirPath "/base/l") ++
              "</h1><hr><br />" ++
              joinLinks (computeListingUri exCfg (normalizeDirPath "/base/l"))
                (["x.txt", ".hidden"].filter (fun e => !isHidden e)) ++
              "</body></html>"),
            true, ""⟩ :=
  c8_listing_one_link_per_visible_entry exCfg exFs [] "/base/l" ⟨0o040700, 0⟩
    ["x.txt", ".hidden"] (by decide) (by decide) (by decide)

/-- An element located by its index is a member of the list. -/
theorem mem_of_getElemOpt {l : List Char} {n : Nat} {a : Char}
    (h : l[n]? = some a) : a ∈ l := by
  rcases List.getElem?_eq_some.mp h with ⟨hn, rfl⟩
  exact List.getElem_mem hn

/-- Characterization of the find_last_of search: either no character of
the list belongs to the character set and the search fails, or it
returns the largest index whose character belongs to the set. -/
theorem lastIndexOfAny_spec (cs bs : List Char) :
    (lastIndexOfAny cs bs = none ∧ ∀ c ∈ cs, c ∉ bs) ∨
    (∃ i, lastIndexOfAny cs bs = some i ∧ i < cs.length ∧
      (∃ c, cs[i]? = some c ∧ c ∈ bs) ∧
      (∀ j c, i < j → cs[j]? = some c → c ∉ bs)) := by
  induction cs with
  | nil => exact Or.inl ⟨rfl, by simp⟩
  | cons c rest ih =>
    rcases ih with ⟨hnone, hall⟩ | ⟨i, hsome, hlt, ⟨d, hd, hdb⟩, hafter⟩
    · by_cases hc : c ∈ bs
      · refine Or.inr ⟨0, ?_, by simp, ⟨c, by simp, hc⟩, ?_⟩
        · simp only [lastIndexOfAny, hnone]
          rw [if_pos (by simpa using hc)]
        · intro j x hj hx
          cases j with
          | zero => omega
          | succ j =>
            simp only [List.getElem?_cons_succ] at hx
            exact hall x (mem_of_getElemOpt hx)
      · refine Or.inl ⟨?_, ?_⟩
        · simp only [lastIndexOfAny, hnone]
          rw [if_neg (by simpa using hc)]
        · intro x hx
          rcases List.mem_cons.mp hx with h | h
          · exact h ▸ hc
          · exact hall x h
    · refine Or.inr ⟨i + 1, ?_, by simpa using hlt,
        ⟨d, by simpa using hd, hdb⟩, ?_⟩
      · simp only [lastIndexOfAny, hsome]
      · intro j x hj hx
        cases j with
        | zero => omega
        | succ j =>
          simp only [List.getElem?_cons_succ] at hx
          exact hafter j x (by omega) hx

/-- The listing URI as the specification words it: the absolute path
with the base disk path stripped from its front when it is a textual
front match, the placeholder otherwise. Stated for refinement
comparison with the URI the source actually computes. -/
def specListingUri (cfg : HostConfig) (path : String) : String :=
  if path.data.take cfg.baseDiskPath.data.length = cfg.baseDiskPath.data then
    String.mk (path.data.drop cfg.baseDiskPath.data.length)
  else "?"

/-- A configuration with a multi-directory base path, for exercising the
listing URI computation. -/
def exCfg2 : HostConfig := ⟨"/var/www", [], fun _ => ""⟩

/-- Counterexample to C9: for base path /var/www and absolute path
/var/www/foo/, stripping the base from the front would display /foo/,
but the source uses find_last_of — the last character of the path that
occurs anywhere in the base — and displays only /. -/
theorem c9_counterexample :
    computeListingUri exCfg2 "/var/www/foo/" = "/" ∧
    specListingUri exCfg2 "/var/www/foo/" = "/foo/" ∧
    computeListingUri exCfg2 "/var/www/foo/" ≠
      specListingUri exCfg2 "/var/www/foo/" := by decide

/-- Claim C9 as amended: the displayed URI is the suffix of the absolute
path starting at the LAST character that occurs anywhere in the base
disk path (find_last_of semantics, not a front-match strip), and the
placeholder is displayed exactly when no character of the path occurs in
the base path. -/
theorem c9_listing_uri_spec (cfg : HostConfig) (path : String) :
    (computeListingUri cfg path = "?" ∧
      ∀ c ∈ path.data, c ∉ cfg.baseDiskPath.data) ∨
    (∃ i, i < path.data.length ∧
      computeListingUri cfg path = String.mk (path.data.drop i) ∧
      (∃ c, path.data[i]? = some c ∧ c ∈ cfg.baseDiskPath.data) ∧
      (∀ j c, i < j → path.data[j]? = some c → c ∉ cfg.baseDiskPath.data)) := by
  rcases lastIndexOfAny_spec path.data cfg.baseDiskPath.data with
    ⟨hnone, hall⟩ | ⟨i, hsome, hlt, hat, hafter⟩
  · exact Or.inl ⟨by simp [computeListingUri, hnone], hall⟩
  · exact Or.inr ⟨i, hlt, by simp [computeListingUri, hsome], hat, hafter⟩

/-- Counterexample to C7: the directory /base/e (owner mask set, no
index file) cannot be opened for enumeration, yet resolve does not
collapse this failure to a miss: it returns a non-NULL Resource whose
buffer is empty. -/
theorem c7_counterexample :
    (getResource exCfg exFs [] "/e").result ≠ none ∧
    (getResource exCfg exFs [] "/e").result.map Resource.data = some [] ∧
    exFs.readdir "/base/e/" = none := by decide

/-- Claim C7 as amended: on a cache miss every failure collapses to a
miss at the resolve boundary EXCEPT directory-enumeration failure. A
non-NULL result is either a file Resource whose file was successfully
opened, or a listing Resource; in the listing case an enumeration
failure does not yield a miss but a Resource with a zero-length
buffer. -/
theorem c7_failures_collapse_except_enumeration (cfg : HostConfig)
    (fs : FileSys) (cache : CacheMap) (uri : String) (res : Resource)
    (hmiss : cacheFind cache (cfg.baseDiskPath ++ uri) = none)
    (hres : (getResource cfg fs cache uri).result = some res) :
    (res.isDirectory = false ∧ fs.openOk res.location = true) ∨
    (res.isDirectory = true ∧ (fs.readdir res.location = none → res.data = [])) := by
  by_cases hb0 : (uri.length > 255 || uri.isEmpty) = true
  · exact absurd hres (by simp [getResource, hb0])
  · have hb : (uri.length > 255 || uri.isEmpty) = false := by simpa using hb0
    cases hstat : fs.stat (cfg.baseDiskPath ++ uri) with
    | none => exact absurd hres (by simp [getResource, hb, hmiss, hstat])
    | some sb =>
      by_cases hdir : sb.st_mode &&& S_IFDIR ≠ 0
      · have hres2 :
            (loadDirectory cfg fs cache (cfg.baseDiskPath ++ uri) sb).result =
              some res := by
          simpa [getResource, hb, hmiss, hstat, hdir] using hres
        rcases hpq : probeIndexes fs (normalizeDirPath (cfg.baseDiskPath ++ uri))
            cfg.validIndexes with ⟨fst, snd⟩
        cases fst with
        | some pr =>
          rcases pr with ⟨loadIndex, sidx⟩
          have hres3 : (loadFile cfg fs cache loadIndex sidx).result = some res := by
            simpa [loadDirectory, hpq] using hres2
          by_cases hperm : sidx.st_mode &&& S_IRWXU = 0
          · exact absurd hres3 (by simp [loadFile, hperm])
          · by_cases hopen : fs.openOk loadIndex = false
            · exact absurd hres3 (by simp [loadFile, hperm, hopen])
            · have h4 : (⟨loadIndex, (fs.contents loadIndex).take sidx.st_size,
                  false, cfg.guessMime loadIndex⟩ : Resource) = res := by
                have := hres3
                simp [loadFile, hperm, hopen] at this
                exact this
              subst h4
              exact Or.inl ⟨rfl, by simpa using hopen⟩
        | none =>
          by_cases hperm : sb.st_mode &&& S_IRWXU = 0
          · exact absurd hres2 (by simp [loadDirectory, hpq, hperm])
          · have h4 : (⟨normalizeDirPath (cfg.baseDiskPath ++ uri),
                strBytes (listDirectory cfg fs
                  (normalizeDirPath (cfg.baseDiskPath ++ uri))).1,
                true, ""⟩ : Resource) = res := by
              have := hres2
              simp [loadDirectory, hpq, hperm] at this
              exact this
            subst h4
            refine Or.inr ⟨rfl, ?_⟩
            intro hrd
            simp [listDirectory, hrd, strBytes]
      · by_cases hreg : sb.st_mode &&& S_IFREG ≠ 0
        · have hres2 :
              (loadFile cfg fs cache (cfg.baseDiskPath ++ uri) sb).result =
                some res := by
            simpa [getResource, hb, hmiss, hstat, hdir, hreg] using hres
          by_cases hperm : sb.st_mode &&& S_IRWXU = 0
          · exact absurd hres2 (by simp [loadFile, hperm])
          · by_cases hopen : fs.openOk (cfg.baseDiskPath ++ uri) = false
            · exact absurd hres2 (by simp [loadFile, hperm, hopen])
            · have h4 : (⟨cfg.baseDiskPath ++ uri,
                  (fs.contents (cfg.baseDiskPath ++ uri)).take sb.st_size,
                  false, cfg.guessMime (cfg.baseDiskPath ++ uri)⟩ : Resource) = res := by
                have := hres2
                simp [loadFile, hperm, hopen] at this
                exact this
              subst h4
              exact Or.inl ⟨rfl, by simpa using hopen⟩
        · exact absurd hres (by simp [getResource, hb, hmiss, hstat, hdir, hreg])

/-- Witness for the amended C7 at the unlistable directory /base/e. -/
theorem c7_witness :
    ((⟨"/base/e/", [], true, ""⟩ : Resource).isDirectory = false ∧
      exFs.openOk (⟨"/base/e/", [], true, ""⟩ : Resource).location = true) ∨
    ((⟨"/base/e/", [], true, ""⟩ : Resource).isDirectory = true ∧
      (exFs.readdir (⟨"/base/e/", [], true, ""⟩ : Resource).location = none →
        (⟨"/base/e/", [], true, ""⟩ : Resource).data = [])) :=
  c7_failures_collapse_except_enumeration exCfg exFs [] "/e"
    ⟨"/base/e/", [], true, ""⟩ (by decide) (by decide)

/-- The probe trace contains no cache insertion: every probe operation
is a stat. -/
theorem probeIndexes_ops_filter_insert (fs : FileSys) (path : String)
    (l : List String) :
    ((probeIndexes fs path l).2).filter Op.isInsert = [] := by
  induction l with
  | nil => rfl
  | cons idx rest ih =>
    cases h : fs.stat (path ++ idx) with
    | none => simp [probeIndexes, h, Op.isInsert, ih]
    | some sidx => simp [probeIndexes, h, Op.isInsert]

/-- Counterexample to C10: resolving the directory URI /l succeeds, yet
the freshly constructed Resource is NOT inserted under the composed key
baseDiskPath + uri: a subsequent lookup of that composed path misses
(the listing was cached under the slash-normalized path /base/l/). -/
theorem c10_counterexample :
    (getResource exCfg exFs [] "/l").result.isSome = true ∧
    cacheFind (getResource exCfg exFs [] "/l").cache ("/base" ++ "/l") = none := by
  decide

/-- Claim C10 as amended: on every successful load following a cache
miss, exactly one cache insertion occurs, under the key given by the
Resource location — the composed path for direct file loads, the
index-file path for index resolution, the slash-normalized directory
path for listings — and a subsequent lookup of THAT key finds the
Resource; the composed base + URI key finds it only when it coincides
with the location. -/
theorem c10_one_insertion_under_location (cfg : HostConfig) (fs : FileSys)
    (cache : CacheMap) (uri : String) (res : Resource)
    (hmiss : cacheFind cache (cfg.baseDiskPath ++ uri) = none)
    (hres : (getResource cfg fs cache uri).result = some res) :
    (getResource cfg fs cache uri).cache = cacheInsert cache res.location res ∧
    ((getResource cfg fs cache uri).ops.filter Op.isInsert) =
      [Op.insertOp res.location] ∧
    (cacheFind cache res.location = none →
      cacheFind (getResource cfg fs cache uri).cache res.location = some res) := by
  by_cases hb0 : (uri.length > 255 || uri.isEmpty) = true
  · exact absurd hres (by simp [getResource, hb0])
  · have hb : (uri.length > 255 || uri.isEmpty) = false := by simpa using hb0
    cases hstat : fs.stat (cfg.baseDiskPath ++ uri) with
    | none => exact absurd hres (by simp [getResource, hb, hmiss, hstat])
    | some sb =>
      by_cases hdir : sb.st_mode &&& S_IFDIR ≠ 0
      · rcases hpq : probeIndexes fs (normalizeDirPath (cfg.baseDiskPath ++ uri))
            cfg.validIndexes with ⟨fst, snd⟩
        have hsnd : snd.filter Op.isInsert = [] := by
          have := probeIndexes_ops_filter_insert fs
            (normalizeDirPath (cfg.baseDiskPath ++ uri)) cfg.validIndexes
          rw [hpq] at this
          exact this
        cases fst with
        | some pr =>
          rcases pr with ⟨loadIndex, sidx⟩
          have hres3 : (loadFile cfg fs cache loadIndex sidx).result = some res := by
            simpa [getResource, hb, hmiss, hstat, hdir, loadDirectory, hpq] using hres
          by_cases hperm : sidx.st_mode &&& S_IRWXU = 0
          · exact absurd hres3 (by simp [loadFile, hperm])
          · by_cases hopen : fs.openOk loadIndex = false
            · exact absurd hres3 (by simp [loadFile, hperm, hopen])
            · have h4 : (⟨loadIndex, (fs.contents loadIndex).take sidx.st_size,
                  false, cfg.guessMime loadIndex⟩ : Resource) = res := by
                have := hres3
                simp [loadFile, hperm, hopen] at this
                exact this
              subst h4
              refine ⟨?_, ?_, ?_⟩
              · simp [getResource, hb, hmiss, hstat, hdir, loadDirectory, hpq,
                      loadFile, hperm, hopen]
              · simp [getResource, hb, hmiss, hstat, hdir, loadDirectory, hpq,
                      loadFile, hperm, hopen, Op.isInsert, hsnd]
              · intro hf
                rw [show (getResource cfg fs cache uri).cache =
                    cacheInsert cache loadIndex
                      ⟨loadIndex, (fs.contents loadIndex).take sidx.st_size,
                       false, cfg.guessMime loadIndex⟩ from by
                  simp [getResource, hb, hmiss, hstat, hdir, loadDirectory, hpq,
                        loadFile, hperm, hopen]]
                rw [cacheInsert_of_miss _ hf]
                exact cacheFind_cons_self _ _ _
        | none =>
          by_cases hperm : sb.st_mode &&& S_IRWXU = 0
          · exact absurd hres
              (by simp [getResource, hb, hmiss, hstat, hdir, loadDirectory,
                        hpq, hperm])
          · have h4 : (⟨normalizeDirPath (cfg.baseDiskPath ++ uri),
                strBytes (listDirectory cfg fs
                  (normalizeDirPath (cfg.baseDiskPath ++ uri))).1,
                true, ""⟩ : Resource) = res := by
              have := hres
              simp [getResource, hb, hmiss, hstat, hdir, loadDirectory, hpq,
                    hperm] at this
              exact this
            subst h4
            refine ⟨?_, ?_, ?_⟩
            · simp [getResource, hb, hmiss, hstat, hdir, loadDirectory, hpq, hperm]
            · rcases hld : fs.readdir (normalizeDirPath (cfg.baseDiskPath ++ uri)) with _ | ents <;>
                simp [getResource, hb, hmiss, hstat, hdir, loadDirectory, hpq,
                      hperm, listDirectory, hld, Op.isInsert, hsnd]
            · intro hf
              rw [show (getResource cfg fs cache uri).cache =
                  cacheInsert cache (normalizeDirPath (cfg.baseDiskPath ++ uri))
                    ⟨normalizeDirPath (cfg.baseDiskPath ++ uri),
                     strBytes (listDirectory cfg fs
                       (normalizeDirPath (cfg.baseDiskPath ++ uri))).1,
                     true, ""⟩ from by
                simp [getResource, hb, hmiss, hstat, hdir, loadDirectory, hpq, hperm]]
              rw [cacheInsert_of_miss _ hf]
              exact cacheFind_cons_self _ _ _
      · by_cases hreg : sb.st_mode &&& S_IFREG ≠ 0
        · by_cases hperm : sb.st_mode &&& S_IRWXU = 0
          · exact absurd hres
              (by simp [getResource, hb, hmiss, hstat, hdir, hreg, loadFile, hperm])
          · by_cases hopen : fs.openOk (cfg.baseDiskPath ++ uri) = false
            · exact absurd hres
                (by simp [getResource, hb, hmiss, hstat, hdir, hreg, loadFile,
                          hperm, hopen])
            · have h4 : (⟨cfg.baseDiskPath ++ uri,
                  (fs.contents (cfg.baseDiskPath ++ uri)).take sb.st_size,
                  false, cfg.guessMime (cfg.baseDiskPath ++ uri)⟩ : Resource) = res := by
                have := hres
                simp [getResource, hb, hmiss, hstat, hdir, hreg, loadFile,
                      hperm, hopen] at this
                exact this
              subst h4
              refine ⟨?_, ?_, ?_⟩
              · simp [getResource, hb, hmiss, hstat, hdir, hreg, loadFile,
                      hperm, hopen]
              · simp [getResource, hb, hmiss, hstat, hdir, hreg, loadFile,
                      hperm, hopen, Op.isInsert]
              · intro hf
                rw [show (getResource cfg fs cache uri).cache =
                    cacheInsert cache (cfg.baseDiskPath ++ uri)
                      ⟨cfg.baseDiskPath ++ uri,
                       (fs.contents (cfg.baseDiskPath ++ uri)).take sb.st_size,
                       false, cfg.guessMime (cfg.baseDiskPath ++ uri)⟩ from by
                  simp [getResource, hb, hmiss, hstat, hdir, hreg, loadFile,
                        hperm, hopen]]
                rw [cacheInsert_of_miss _ hf]
                exact cacheFind_cons_self _ _ _
        · exact absurd hres
            (by simp [getResource, hb, hmiss, hstat, hdir, hreg])

/-- Witness for the amended C10 at the regular file /base/f. -/
theorem c10_witness :
    (getResource exCfg exFs [] "/f").cache =
      cacheInsert []
        (Resource.location ⟨"/base/f", [97, 98, 99], false, "text/html"⟩)
        ⟨"/base/f", [97, 98, 99], false, "text/html"⟩ ∧
    ((getResource exCfg exFs [] "/f").ops.filter Op.isInsert) =
      [Op.insertOp
        (Resource.location ⟨"/base/f", [97, 98, 99], false, "text/html"⟩)] ∧
    (cacheFind []
        (Resource.location ⟨"/base/f", [97, 98, 99], false, "text/html"⟩) = none →
      cacheFind (getResource exCfg exFs [] "/f").cache
        (Resource.location ⟨"/base/f", [97, 98, 99], false, "text/html"⟩) =
        some ⟨"/base/f", [97, 98, 99], false, "text/html"⟩) :=
  c10_one_insertion_under_location exCfg exFs [] "/f"
    ⟨"/base/f", [97, 98, 99], false, "text/html"⟩ (by decide) (by decide)
